import Mathlib

/-!
Verification of the incremental TODO scan-and-cache engine.

Shallow embedding of the core of `src/extension.ts` and `src/todoTree.ts`:
strings are modelled as `List Char`; the per-file step of
`scanWorkspaceAndUpdate` becomes explicit state passing over a `ScanState`;
fallible I/O (stat / hash / read) is modelled by `Option`-valued fields of a
per-file environment `FileState`.
-/

namespace AutoTodo

/-- Strings are modelled as lists of characters (code points). -/
abbrev Str := List Char

/-- Embeds JS `line.indexOf(key)`: the least index at which `key` occurs as a
contiguous substring of `line`, or `none` where JS returns `-1`.  As in JS,
the empty key occurs at index 0 of every line. -/
def indexOfSub (line key : Str) : Option Nat :=
  if key.isPrefixOf line then some 0
  else
    match line with
    | [] => none
    | _ :: rest => (indexOfSub rest key).map (· + 1)

/-- `key` occurs somewhere in `line` (JS `line.indexOf(key) >= 0`). -/
def occursIn (key line : Str) : Bool :=
  (indexOfSub line key).isSome

/-- The characters of the character class `[:\- ]` in the stripping regex. -/
def isSeparatorChar (c : Char) : Bool :=
  c = ':' || c = '-' || c = ' '

/-- Embeds `after.replace(/^[:\- ]+/, "")`: the anchored leftmost-longest
match of `[:\- ]+` is exactly the maximal leading run of ':', '-' and ' '
characters, and replacing it by the empty string drops that run. -/
def stripLeadingSeparators (s : Str) : Str :=
  s.dropWhile isSeparatorChar

/-- Result of the Line Matcher: matched keyword and extracted trailing text. -/
structure MatchResult where
  kind : Str
  text : Str
deriving Repr, DecidableEq

/-- Embeds `matchLine` (src/extension.ts lines 946-962): iterate keywords in
caller-supplied order; for the first keyword occurring in the line, take the
text after the end of its leftmost occurrence and strip the leading
separator run. -/
def matchLine (line : Str) : List Str → Option MatchResult
  | [] => none
  | key :: rest =>
    match indexOfSub line key with
    | some index =>
      some ⟨key, stripLeadingSeparators (line.drop (index + key.length))⟩
    | none => matchLine line rest

/-! ### Basic facts about the matcher -/

theorem indexOfSub_nil_key (line : Str) : indexOfSub line [] = some 0 := by
  cases line <;> simp [indexOfSub, List.isPrefixOf]

theorem matchLine_map_kind (line : Str) (keywords : List Str) :
    (matchLine line keywords).map MatchResult.kind
      = keywords.find? (fun k => occursIn k line) := by
  induction keywords with
  | nil => simp [matchLine]
  | cons k rest ih =>
    simp only [matchLine, List.find?, occursIn]
    cases h : indexOfSub line k with
    | some i => simp [h]
    | none => simpa [h] using ih

theorem matchLine_eq_none_of_no_occurrence (line : Str) (keywords : List Str)
    (h : ∀ k ∈ keywords, occursIn k line = false) :
    matchLine line keywords = none := by
  induction keywords with
  | nil => rfl
  | cons k rest ih =>
    have hk : occursIn k line = false := h k (by simp)
    simp only [occursIn] at hk
    simp only [matchLine]
    cases hidx : indexOfSub line k with
    | some i => rw [hidx] at hk; simp at hk
    | none => exact ih (fun k hk => h k (by simp [hk]))

theorem matchLine_text_eq (line : Str) (keywords : List Str) (r : MatchResult)
    (h : matchLine line keywords = some r) :
    ∃ i, indexOfSub line r.kind = some i
      ∧ r.text = stripLeadingSeparators (line.drop (i + r.kind.length)) := by
  induction keywords with
  | nil => simp [matchLine] at h
  | cons k rest ih =>
    simp only [matchLine] at h
    cases hidx : indexOfSub line k with
    | some i =>
      rw [hidx] at h
      injection h with h
      subst h
      exact ⟨i, hidx, rfl⟩
    | none =>
      rw [hidx] at h
      exact ih h

/-- Claim C1: for every line and every keyword list, the Line Matcher returns
the first keyword in list iteration order whose literal substring occurs
anywhere in the line, regardless of where that keyword occurs relative to
occurrences of other keywords; in particular on "// FIXME TODO: x" with
keywords ["TODO", "FIXME"] it yields kind "TODO" although FIXME occurs
earlier in the line (index 3 versus index 9). -/
theorem C1_first_keyword_in_list_order_wins :
    (∀ (line : Str) (keywords : List Str),
        (matchLine line keywords).map MatchResult.kind
          = keywords.find? (fun k => occursIn k line))
    ∧ (matchLine ("// FIXME TODO: x".toList)
          ["TODO".toList, "FIXME".toList]).map MatchResult.kind
        = some ("TODO".toList)
    ∧ indexOfSub ("// FIXME TODO: x".toList) ("FIXME".toList) = some 3
    ∧ indexOfSub ("// FIXME TODO: x".toList) ("TODO".toList) = some 9 :=
  ⟨matchLine_map_kind, by decide, by decide, by decide⟩

/-- Claim C2: when the Line Matcher matches, the returned text is exactly the
substring of the line following the end of the keyword's leftmost occurrence
with the leading maximal run of ':', '-' and ' ' removed; matching is plain
substring matching with no word-boundary check, and the matcher returns
nothing when no keyword occurs in the line; the three documented examples
hold. -/
theorem C2_text_extraction_and_stripping :
    (∀ (line : Str) (keywords : List Str) (r : MatchResult),
        matchLine line keywords = some r →
        ∃ i, indexOfSub line r.kind = some i
          ∧ r.text = stripLeadingSeparators (line.drop (i + r.kind.length)))
    ∧ (∀ (line : Str) (keywords : List Str),
        (∀ k ∈ keywords, occursIn k line = false) →
        matchLine line keywords = none)
    ∧ matchLine ("// TODO:   fix it".toList) ["TODO".toList]
        = some ⟨"TODO".toList, "fix it".toList⟩
    ∧ matchLine ("// TODO-fix".toList) ["TODO".toList]
        = some ⟨"TODO".toList, "fix".toList⟩
    ∧ matchLine ("// TODONOTHING".toList) ["TODO".toList]
        = some ⟨"TODO".toList, "NOTHING".toList⟩ :=
  ⟨matchLine_text_eq, matchLine_eq_none_of_no_occurrence,
    by decide, by decide, by decide⟩

/-- Witness for C2 at a concrete input: the universally quantified parts
applied to the line "// TODO-fix" with keyword list ["TODO"]. -/
theorem C2_text_extraction_and_stripping_witness :
    (∃ i, indexOfSub ("// TODO-fix".toList) ("TODO".toList) = some i
      ∧ ("fix".toList)
          = stripLeadingSeparators (("// TODO-fix".toList).drop (i + ("TODO".toList).length)))
    ∧ matchLine ("xyz".toList) ["TODO".toList] = none :=
  ⟨C2_text_extraction_and_stripping.1 ("// TODO-fix".toList) ["TODO".toList]
      ⟨"TODO".toList, "fix".toList⟩ (by decide),
    C2_text_extraction_and_stripping.2.1 ("xyz".toList) ["TODO".toList]
      (by decide)⟩

/-- Claim C10: if the keyword list contains the empty string, the Line
Matcher matches every line once iteration reaches that keyword (the empty
string occurs in every line at index 0), returning kind "" and text equal to
the entire line with its leading separator run stripped; so with such a
keyword list the matcher never returns nothing for any line. -/
theorem C10_empty_keyword_matches_everything :
    (∀ (line : Str) (pre post : List Str),
        (∀ k ∈ pre, occursIn k line = false) →
        matchLine line (pre ++ [] :: post)
          = some ⟨[], stripLeadingSeparators line⟩)
    ∧ (∀ (line : Str) (keywords : List Str),
        [] ∈ keywords → (matchLine line keywords).isSome = true) := by
  constructor
  · intro line pre post h
    induction pre with
    | nil =>
      simp only [List.nil_append, matchLine, indexOfSub_nil_key]
      simp
    | cons k rest ih =>
      have hk : occursIn k line = false := h k (by simp)
      simp only [occursIn] at hk
      simp only [List.cons_append, matchLine]
      cases hidx : indexOfSub line k with
      | some i => rw [hidx] at hk; simp at hk
      | none => exact ih (fun k hk => h k (by simp [hk]))
  · intro line keywords h
    induction keywords with
    | nil => simp at h
    | cons k rest ih =>
      simp only [matchLine]
      cases hidx : indexOfSub line k with
      | some i => simp
      | none =>
        rcases List.mem_cons.mp h with hk | hk
        · subst hk; rw [indexOfSub_nil_key] at hidx; simp at hidx
        · exact ih hk

/-- Witness for C10 at a concrete input: keywords ["XX", ""] on the line
":- hello", whose leading separator run is stripped. -/
theorem C10_empty_keyword_matches_everything_witness :
    matchLine (":- hello".toList) (["XX".toList] ++ [] :: [])
        = some ⟨[], stripLeadingSeparators (":- hello".toList)⟩
    ∧ (matchLine (":- hello".toList) ["XX".toList, []]).isSome = true :=
  ⟨C10_empty_keyword_matches_everything.1 (":- hello".toList) ["XX".toList] []
      (by decide),
    C10_empty_keyword_matches_everything.2 (":- hello".toList)
      ["XX".toList, []] (by decide)⟩

/-! ### Scan orchestrator model

Embeds the per-file step of `scanWorkspaceAndUpdate` (src/extension.ts lines
778-853, the progress-reporting branch): size check, fingerprint, cache
consultation, scan on miss, cache update, progress report; per-file
exceptions (the document read) are caught and only logged. -/

/-- A file reference: `key` models `uri.toString()` (the cache key and file
identity), `fsPath` models `uri.fsPath` (used by path filter and sorting). -/
structure Uri where
  key : Str
  fsPath : Str
deriving Repr, DecidableEq

/-- Embeds `TodoEntry` from src/todoTree.ts. -/
structure TodoEntry where
  kind : Str
  text : Str
  fileUri : Uri
  line : Nat
  lineText : Str
deriving Repr, DecidableEq

/-- Embeds the `FileCache` record interface (src/extension.ts lines 28-32). -/
structure FileCache where
  hash : Str
  entries : List TodoEntry
  timestamp : Nat
deriving Repr, DecidableEq

/-- `fileCache.get(key)` on the cache modelled as an association list. -/
def cacheGet : List (Str × FileCache) → Str → Option FileCache
  | [], _ => none
  | (k, v) :: rest, key => if k = key then some v else cacheGet rest key

/-- `fileCache.set(key, v)`: replaces the record for `key`, or appends. -/
def cacheSet : List (Str × FileCache) → Str → FileCache → List (Str × FileCache)
  | [], key, v => [(key, v)]
  | (k, w) :: rest, key, v =>
    if k = key then (key, v) :: rest else (k, w) :: cacheSet rest key v

/-- Per-file environment for one scan pass:
`statSize` is the result of `fs.promises.stat(...).catch(() => null)` (the
size, or `none` when stat fails); `hashResult` is the MD5 of content plus
mtime when stat and read succeed inside `calculateFileHash`, `none` when
they fail; `readResult` is the list of lines delivered by
`vscode.workspace.openTextDocument`, `none` when that read throws. -/
structure FileState where
  statSize : Option Nat
  hashResult : Option Str
  readResult : Option (List Str)
deriving Repr, DecidableEq

/-- Embeds `calculateFileHash` (src/extension.ts lines 723-736): on any
stat/read failure the catch block returns the empty string, intended to
force a rescan. -/
def calculateFileHash (f : FileState) : Str :=
  match f.hashResult with
  | some h => h
  | none => []

/-- The `stats && stats.size > maxFileSize` size check. -/
def exceedsMax (maxFileSize : Nat) (statSize : Option Nat) : Bool :=
  match statSize with
  | some size => maxFileSize < size
  | none => false

/-- Embeds the per-line scanning loop (lines 808-820): for each 0-indexed
line apply the Line Matcher; each match becomes one entry. -/
def scanLines (uri : Uri) (keywords : List Str) (lines : List Str) :
    List TodoEntry :=
  lines.enum.filterMap fun p =>
    (matchLine p.2 keywords).map fun m =>
      { kind := m.kind, text := m.text, fileUri := uri,
        line := p.1, lineText := p.2 }

/-- Mutable state of one scan pass: the persistent cache, the aggregated
entry list, the counters of `scanWorkspaceAndUpdate`, the logged per-file
error count, and the progress reports (completed, total) as emitted. -/
structure ScanState where
  cache : List (Str × FileCache)
  entries : List TodoEntry
  totalFiles : Nat
  scannedFiles : Nat
  cachedFiles : Nat
  skippedFiles : Nat
  errorCount : Nat
  reports : List (Nat × Nat)
deriving Repr, DecidableEq

/-- The state at the start of a pass: fresh counters over a carried cache. -/
def initState (cache : List (Str × FileCache)) : ScanState :=
  { cache := cache, entries := [], totalFiles := 0, scannedFiles := 0,
    cachedFiles := 0, skippedFiles := 0, errorCount := 0, reports := [] }

/-- The cache-miss rescan (lines 804-831): read the document (`none` models
the thrown exception), scan every line, store the fresh record via
`fileCache.set`, append the fresh entries, increment `scannedFiles`. -/
def rescanFile (keywords : List Str) (now : Nat) (st : ScanState) (uri : Uri)
    (f : FileState) (currentHash : Str) : Option ScanState :=
  match f.readResult with
  | none => none
  | some lines =>
    let fileEntries := scanLines uri keywords lines
    some { st with
      cache := cacheSet st.cache uri.key
        { hash := currentHash, entries := fileEntries, timestamp := now },
      entries := st.entries ++ fileEntries,
      scannedFiles := st.scannedFiles + 1 }

/-- Embeds the body of `for (const uri of files)` in the progress branch
(lines 784-847).  Oversized files are skipped before fingerprinting; a cache
record whose stored hash equals the fresh hash is reused verbatim; otherwise
the file is rescanned; after either branch the code runs `scannedFiles++`
again and reports `Scanned scannedFiles/totalFiles`; a thrown read lands in
the catch block, which only logs. -/
def processFile (maxFileSize : Nat) (keywords : List Str) (now : Nat)
    (st : ScanState) (uri : Uri) (f : FileState) : ScanState :=
  if exceedsMax maxFileSize f.statSize then
    { st with skippedFiles := st.skippedFiles + 1 }
  else
    let currentHash := calculateFileHash f
    let branched : Option ScanState :=
      match cacheGet st.cache uri.key with
      | some cached =>
        if cached.hash = currentHash then
          some { st with entries := st.entries ++ cached.entries,
                         cachedFiles := st.cachedFiles + 1 }
        else rescanFile keywords now st uri f currentHash
      | none => rescanFile keywords now st uri f currentHash
    match branched with
    | none => { st with errorCount := st.errorCount + 1 }
    | some st2 =>
      { st2 with scannedFiles := st2.scannedFiles + 1,
                 reports := st2.reports ++ [(st2.scannedFiles + 1, st2.totalFiles)] }

/-- The loop over the resolved files of one include pattern. -/
def processFiles (maxFileSize : Nat) (keywords : List Str) (now : Nat)
    (files : List (Uri × FileState)) (st : ScanState) : ScanState :=
  files.foldl (fun s p => processFile maxFileSize keywords now s p.1 p.2) st

/-- The loop over include patterns (lines 778-853): `findFiles` resolves
each pattern to a file list (`none` models a thrown enumeration failure,
which the per-pattern catch logs before continuing); on success
`totalFiles += files.length` and every file is processed. -/
def processPatterns (maxFileSize : Nat) (keywords : List Str) (now : Nat)
    (patterns : List (Option (List (Uri × FileState)))) (st : ScanState) :
    ScanState :=
  patterns.foldl
    (fun s pat =>
      match pat with
      | none => s
      | some files =>
        processFiles maxFileSize keywords now files
          { s with totalFiles := s.totalFiles + files.length })
    st

/-! ### Facts about the cache and the per-file step -/

theorem cacheGet_cacheSet_same (cache : List (Str × FileCache)) (key : Str)
    (v : FileCache) : cacheGet (cacheSet cache key v) key = some v := by
  induction cache with
  | nil => simp [cacheSet, cacheGet]
  | cons p rest ih =>
    obtain ⟨k, w⟩ := p
    by_cases hk : k = key
    · simp [cacheSet, cacheGet, hk]
    · simp [cacheSet, cacheGet, hk, ih]

theorem processFiles_append (m : Nat) (ks : List Str) (now : Nat)
    (l₁ l₂ : List (Uri × FileState)) (st : ScanState) :
    processFiles m ks now (l₁ ++ l₂) st
      = processFiles m ks now l₂ (processFiles m ks now l₁ st) := by
  simp [processFiles, List.foldl_append]

theorem processFile_errorBump (m : Nat) (ks : List Str) (now : Nat)
    (st : ScanState) (u : Uri) (f : FileState) :
    processFile m ks now { st with errorCount := st.errorCount + 1 } u f
      = { processFile m ks now st u f with
          errorCount := (processFile m ks now st u f).errorCount + 1 } := by
  simp only [processFile, rescanFile]
  by_cases hs : exceedsMax m f.statSize
  · simp [hs]
  · simp only [hs, Bool.false_eq_true, if_false]
    cases hc : cacheGet st.cache u.key with
    | some cached =>
      by_cases heq : cached.hash = calculateFileHash f
      · simp [hc, heq]
      · cases hr : f.readResult <;> simp [hc, heq, hr]
    | none =>
      cases hr : f.readResult <;> simp [hc, hr]

theorem processFiles_errorBump (m : Nat) (ks : List Str) (now : Nat)
    (files : List (Uri × FileState)) :
    ∀ st : ScanState,
    processFiles m ks now files { st with errorCount := st.errorCount + 1 }
      = { processFiles m ks now files st with
          errorCount := (processFiles m ks now files st).errorCount + 1 } := by
  induction files with
  | nil => intro st; rfl
  | cons p rest ih =>
    intro st
    show processFiles m ks now rest
        (processFile m ks now { st with errorCount := st.errorCount + 1 } p.1 p.2)
      = _
    rw [processFile_errorBump]
    exact ih (processFile m ks now st p.1 p.2)

/-- An unreadable file on a cache miss only logs one error: every other
field of the state is untouched. -/
theorem processFile_unreadable_miss (m : Nat) (ks : List Str) (now : Nat)
    (st : ScanState) (u : Uri) (f : FileState)
    (hread : f.readResult = none)
    (hsize : exceedsMax m f.statSize = false)
    (hmiss : ∀ c, cacheGet st.cache u.key = some c →
        c.hash ≠ calculateFileHash f) :
    processFile m ks now st u f = { st with errorCount := st.errorCount + 1 } := by
  simp only [processFile, rescanFile, hsize, Bool.false_eq_true, if_false, hread]
  cases hc : cacheGet st.cache u.key with
  | some cached =>
    have := hmiss cached hc
    simp [this]
  | none => simp

/-- Claim C3: a file is served from the cache if and only if a record exists
whose stored fingerprint equals the freshly computed one; on a hit the
stored entries are reused verbatim, the record is untouched and the file
content is never read (the result does not depend on `readResult`); on a
miss the file is scanned line by line and the fresh record replaces any
prior one; consequently scanning an unchanged file twice in succession
yields identical entry lists, the second pass being a cache hit. -/
theorem C3_cache_hit_iff_fingerprint_match
    (cache : List (Str × FileCache)) (m : Nat) (ks : List Str)
    (now now2 : Nat) (u : Uri) (f : FileState) (lines : List Str)
    (hsize : exceedsMax m f.statSize = false)
    (hread : f.readResult = some lines) :
    ((processFile m ks now (initState cache) u f).cachedFiles = 1
        ↔ ∃ c, cacheGet cache u.key = some c ∧ c.hash = calculateFileHash f)
    ∧ (∀ c, cacheGet cache u.key = some c → c.hash = calculateFileHash f →
        (processFile m ks now (initState cache) u f).entries = c.entries
        ∧ (processFile m ks now (initState cache) u f).cache = cache
        ∧ processFile m ks now (initState cache) u f
            = processFile m ks now (initState cache) u
                { statSize := f.statSize, hashResult := f.hashResult,
                  readResult := none })
    ∧ ((∀ c, cacheGet cache u.key = some c → c.hash ≠ calculateFileHash f) →
        (processFile m ks now (initState cache) u f).entries = scanLines u ks lines
        ∧ cacheGet (processFile m ks now (initState cache) u f).cache u.key
            = some ⟨calculateFileHash f, scanLines u ks lines, now⟩)
    ∧ (processFile m ks now2
          (initState (processFile m ks now (initState cache) u f).cache) u f).entries
        = (processFile m ks now (initState cache) u f).entries
    ∧ (processFile m ks now2
          (initState (processFile m ks now (initState cache) u f).cache) u f).cachedFiles
        = 1 := by
  cases hc : cacheGet cache u.key with
  | some c =>
    by_cases heq : c.hash = calculateFileHash f
    · refine ⟨?_, ?_, ?_, ?_, ?_⟩
      · simp [processFile, rescanFile, initState, hsize, hc, heq]
      · intro c' hc' _
        injection hc' with hc'; subst hc'
        refine ⟨?_, ?_, ?_⟩ <;>
          simp [processFile, rescanFile, initState, hsize, hc, heq, calculateFileHash]
      · intro hmiss
        exact absurd heq (hmiss c rfl)
      · simp [processFile, rescanFile, initState, hsize, hc, heq]
      · simp [processFile, rescanFile, initState, hsize, hc, heq]
    · have hres : processFile m ks now (initState cache) u f
          = { cache := cacheSet cache u.key
                ⟨calculateFileHash f, scanLines u ks lines, now⟩,
              entries := scanLines u ks lines, totalFiles := 0,
              scannedFiles := 2, cachedFiles := 0, skippedFiles := 0,
              errorCount := 0, reports := [(2, 0)] } := by
        simp [processFile, rescanFile, initState, hsize, hc, heq, hread]
      refine ⟨?_, ?_, ?_, ?_, ?_⟩
      · rw [hres]
        simp only
        constructor
        · intro h; simp at h
        · rintro ⟨c', hc', heq'⟩
          injection hc' with hc'; subst hc'
          exact absurd heq' heq
      · intro c' hc' heq'
        injection hc' with hc'; subst hc'
        exact absurd heq' heq
      · intro _
        rw [hres]
        exact ⟨rfl, cacheGet_cacheSet_same ..⟩
      · rw [hres]
        simp [processFile, rescanFile, initState, hsize,
          cacheGet_cacheSet_same, hread]
      · rw [hres]
        simp [processFile, rescanFile, initState, hsize,
          cacheGet_cacheSet_same, hread]
  | none =>
    have hres : processFile m ks now (initState cache) u f
        = { cache := cacheSet cache u.key
              ⟨calculateFileHash f, scanLines u ks lines, now⟩,
            entries := scanLines u ks lines, totalFiles := 0,
            scannedFiles := 2, cachedFiles := 0, skippedFiles := 0,
            errorCount := 0, reports := [(2, 0)] } := by
      simp [processFile, rescanFile, initState, hsize, hc, hread]
    refine ⟨?_, ?_, ?_, ?_, ?_⟩
    · rw [hres]
      simp only
      constructor
      · intro h; simp at h
      · rintro ⟨c', hc', -⟩
        exact Option.noConfusion hc'
    · intro c' hc'
      exact absurd hc' (Option.noConfusion ·)
    · intro _
      rw [hres]
      exact ⟨rfl, cacheGet_cacheSet_same ..⟩
    · rw [hres]
      simp [processFile, rescanFile, initState, hsize,
        cacheGet_cacheSet_same, hread]
    · rw [hres]
      simp [processFile, rescanFile, initState, hsize,
        cacheGet_cacheSet_same, hread]

/-- Witness for C3 at a concrete input: empty cache, a readable small file
with one TODO line. -/
theorem C3_cache_hit_iff_fingerprint_match_witness :
    (processFile 100 ["TODO".toList] 1
        (initState []) ⟨"file:a".toList, "/a".toList⟩
        ⟨some 10, some "h".toList, some ["// TODO: x".toList]⟩).cachedFiles = 1
      ↔ ∃ c, cacheGet [] ("file:a".toList) = some c
          ∧ c.hash = calculateFileHash
              ⟨some 10, some "h".toList, some ["// TODO: x".toList]⟩ :=
  (C3_cache_hit_iff_fingerprint_match [] 100 ["TODO".toList] 1 2
    ⟨"file:a".toList, "/a".toList⟩
    ⟨some 10, some "h".toList, some ["// TODO: x".toList]⟩
    ["// TODO: x".toList] (by decide) (by decide)).1

/-- Counterexample to claim C4 as stated.  Pass 1: fingerprinting of the
file fails (`hashResult = none`, so `calculateFileHash` yields the empty
failure token) while the document read succeeds, so a record with the empty
fingerprint and the entries of "// TODO: one" is stored.  Pass 2: the file
content has changed to "// TODO: two" and fingerprinting fails again; the
empty fresh fingerprint equals the empty stored one, so the orchestrator
reuses the stale cached entries (`cachedFiles = 1`) instead of forcing a
rescan — contradicting "it never reuses previously cached entries for that
file". -/
theorem C4_fingerprint_failure_reuse_counterexample :
    (FileState.hashResult ⟨some 10, none, some ["// TODO: two".toList]⟩ = none)
    ∧ (processFile 100 ["TODO".toList] 2
        (initState
          (processFile 100 ["TODO".toList] 1 (initState [])
            ⟨"file:a".toList, "/a".toList⟩
            ⟨some 10, none, some ["// TODO: one".toList]⟩).cache)
        ⟨"file:a".toList, "/a".toList⟩
        ⟨some 10, none, some ["// TODO: two".toList]⟩).cachedFiles = 1
    ∧ (processFile 100 ["TODO".toList] 2
        (initState
          (processFile 100 ["TODO".toList] 1 (initState [])
            ⟨"file:a".toList, "/a".toList⟩
            ⟨some 10, none, some ["// TODO: one".toList]⟩).cache)
        ⟨"file:a".toList, "/a".toList⟩
        ⟨some 10, none, some ["// TODO: two".toList]⟩).entries
      = scanLines ⟨"file:a".toList, "/a".toList⟩ ["TODO".toList]
          ["// TODO: one".toList]
    ∧ (processFile 100 ["TODO".toList] 2
        (initState
          (processFile 100 ["TODO".toList] 1 (initState [])
            ⟨"file:a".toList, "/a".toList⟩
            ⟨some 10, none, some ["// TODO: one".toList]⟩).cache)
        ⟨"file:a".toList, "/a".toList⟩
        ⟨some 10, none, some ["// TODO: two".toList]⟩).entries
      ≠ scanLines ⟨"file:a".toList, "/a".toList⟩ ["TODO".toList]
          ["// TODO: two".toList] := by
  refine ⟨rfl, by decide, by decide, by decide⟩

/-- Claim C4 as amended: when fingerprint computation fails, the fresh
fingerprint is the empty failure token, so the orchestrator never reuses
cached entries stored under a successful (non-empty) fingerprint — it forces
a rescan attempt, appending freshly scanned entries when the read succeeds —
and if the rescan read also fails the file is skipped with one logged error;
the failure never aborts the batch (the remaining files are processed from
the resulting state).  Only a cached record that was itself stored under a
failed fingerprint computation (empty stored token) can be reused. -/
theorem C4_amended_fingerprint_failure_forces_rescan
    (m : Nat) (ks : List Str) (now : Nat) (st : ScanState) (u : Uri)
    (f : FileState)
    (hfail : f.hashResult = none)
    (hsize : exceedsMax m f.statSize = false) :
    ((∀ c, cacheGet st.cache u.key = some c → c.hash ≠ []) →
        (processFile m ks now st u f).cachedFiles = st.cachedFiles)
    ∧ (∀ lines, f.readResult = some lines →
        (∀ c, cacheGet st.cache u.key = some c → c.hash ≠ []) →
        (processFile m ks now st u f).entries = st.entries ++ scanLines u ks lines)
    ∧ (f.readResult = none →
        (∀ c, cacheGet st.cache u.key = some c → c.hash ≠ []) →
        processFile m ks now st u f = { st with errorCount := st.errorCount + 1 })
    ∧ (∀ (files : List (Uri × FileState)),
        processFiles m ks now ((u, f) :: files) st
          = processFiles m ks now files (processFile m ks now st u f)) := by
  have hh : calculateFileHash f = [] := by simp [calculateFileHash, hfail]
  refine ⟨?_, ?_, ?_, fun files => rfl⟩
  · intro hne
    cases hc : cacheGet st.cache u.key with
    | some c =>
      have : c.hash ≠ calculateFileHash f := by rw [hh]; exact hne c hc
      cases hr : f.readResult with
      | some lines =>
        simp [processFile, rescanFile, hsize, hc, this, hr]
      | none =>
        simp [processFile, rescanFile, hsize, hc, this, hr]
    | none =>
      cases hr : f.readResult with
      | some lines => simp [processFile, rescanFile, hsize, hc, hr]
      | none => simp [processFile, rescanFile, hsize, hc, hr]
  · intro lines hr hne
    cases hc : cacheGet st.cache u.key with
    | some c =>
      have : c.hash ≠ calculateFileHash f := by rw [hh]; exact hne c hc
      simp [processFile, rescanFile, hsize, hc, this, hr]
    | none => simp [processFile, rescanFile, hsize, hc, hr]
  · intro hr hne
    refine processFile_unreadable_miss m ks now st u f hr hsize ?_
    intro c hc
    rw [hh]
    exact hne c hc

/-- Witness for the amended C4 at a concrete input: a cache holding a record
with the genuine fingerprint "h", a file whose fingerprinting fails. -/
theorem C4_amended_fingerprint_failure_forces_rescan_witness :
    (processFile 100 ["TODO".toList] 3
      { initState [(("file:a".toList : Str),
          ⟨"h".toList,
            [⟨"TODO".toList, "old".toList, ⟨"file:a".toList, "/a".toList⟩, 0,
              "// TODO: old".toList⟩], 0⟩)] with totalFiles := 1 }
      ⟨"file:a".toList, "/a".toList⟩
      ⟨some 10, none, some ["// TODO: x".toList]⟩).cachedFiles
      = ({ initState [(("file:a".toList : Str),
          ⟨"h".toList,
            [⟨"TODO".toList, "old".toList, ⟨"file:a".toList, "/a".toList⟩, 0,
              "// TODO: old".toList⟩], 0⟩)] with totalFiles := 1 } : ScanState).cachedFiles :=
  (C4_amended_fingerprint_failure_forces_rescan 100 ["TODO".toList] 3
    { initState [(("file:a".toList : Str),
        ⟨"h".toList,
          [⟨"TODO".toList, "old".toList, ⟨"file:a".toList, "/a".toList⟩, 0,
            "// TODO: old".toList⟩], 0⟩)] with totalFiles := 1 }
    ⟨"file:a".toList, "/a".toList⟩
    ⟨some 10, none, some ["// TODO: x".toList]⟩ rfl (by decide)).1
    (by decide)

/-- Claim C5: a file whose stat'd size exceeds the configured maximum is
never scanned: it contributes zero entries, neither creates nor updates a
cache record, emits no progress report, and is counted exactly once as
skipped — the whole per-file step reduces to `skippedFiles + 1`, regardless
of the file's content (which may contain matching keywords). -/
theorem C5_size_skip (m : Nat) (ks : List Str) (now : Nat) (st : ScanState)
    (u : Uri) (f : FileState) (s : Nat)
    (hstat : f.statSize = some s) (hsize : m < s) :
    processFile m ks now st u f = { st with skippedFiles := st.skippedFiles + 1 } := by
  simp [processFile, exceedsMax, hstat, hsize]

/-- Witness for C5 at a concrete input: a 6-byte-limit scan over a file of
size 10 whose single line contains a matching TODO keyword. -/
theorem C5_size_skip_witness :
    processFile 6 ["TODO".toList] 0 (initState [])
        ⟨"file:big".toList, "/big".toList⟩
        ⟨some 10, some "h".toList, some ["// TODO: hidden".toList]⟩
      = { initState [] with skippedFiles := 1 } :=
  C5_size_skip 6 ["TODO".toList] 0 (initState [])
    ⟨"file:big".toList, "/big".toList⟩
    ⟨some 10, some "h".toList, some ["// TODO: hidden".toList]⟩ 10 rfl
    (by decide)

/-- Claim C6: a batch in which one file is unreadable (its document read
fails, with no usable cache record) produces exactly the state of the batch
without that file except for one additional logged error: all other files'
entries, cache updates, counters and reports are unchanged, so no per-file
error aborts the pass; likewise a per-pattern enumeration failure is caught
and processing continues with the remaining patterns. -/
theorem C6_partial_failure_isolation (m : Nat) (ks : List Str) (now : Nat)
    (st₀ : ScanState) (pre post : List (Uri × FileState)) (u : Uri)
    (f : FileState)
    (hread : f.readResult = none)
    (hsize : exceedsMax m f.statSize = false)
    (hmiss : ∀ c, cacheGet (processFiles m ks now pre st₀).cache u.key = some c →
        c.hash ≠ calculateFileHash f) :
    (processFiles m ks now (pre ++ (u, f) :: post) st₀
      = { processFiles m ks now (pre ++ post) st₀ with
          errorCount := (processFiles m ks now (pre ++ post) st₀).errorCount + 1 })
    ∧ (∀ (pats₁ pats₂ : List (Option (List (Uri × FileState)))) (st : ScanState),
        processPatterns m ks now (pats₁ ++ none :: pats₂) st
          = processPatterns m ks now (pats₁ ++ pats₂) st) := by
  constructor
  · rw [processFiles_append, processFiles_append]
    show processFiles m ks now post
        (processFile m ks now (processFiles m ks now pre st₀) u f) = _
    rw [processFile_unreadable_miss m ks now _ u f hread hsize hmiss]
    exact processFiles_errorBump m ks now post (processFiles m ks now pre st₀)
  · intro pats₁ pats₂ st
    simp [processPatterns, List.foldl_append]

/-- Witness for C6 at a concrete input: three files, the middle one
unreadable; the pass equals the two-file pass plus one logged error. -/
theorem C6_partial_failure_isolation_witness :
    processFiles 100 ["TODO".toList] 0
        ([(⟨"file:a".toList, "/a".toList⟩,
            ⟨some 5, some "ha".toList, some ["// TODO: a".toList]⟩)]
          ++ (⟨"file:b".toList, "/b".toList⟩,
              (⟨some 5, some "hb".toList, none⟩ : FileState))
            :: [(⟨"file:c".toList, "/c".toList⟩,
                ⟨some 5, some "hc".toList, some ["// TODO: c".toList]⟩)])
        (initState [])
      = { processFiles 100 ["TODO".toList] 0
            ([(⟨"file:a".toList, "/a".toList⟩,
                ⟨some 5, some "ha".toList, some ["// TODO: a".toList]⟩)]
              ++ [(⟨"file:c".toList, "/c".toList⟩,
                  ⟨some 5, some "hc".toList, some ["// TODO: c".toList]⟩)])
            (initState []) with
          errorCount :=
            (processFiles 100 ["TODO".toList] 0
              ([(⟨"file:a".toList, "/a".toList⟩,
                  ⟨some 5, some "ha".toList, some ["// TODO: a".toList]⟩)]
                ++ [(⟨"file:c".toList, "/c".toList⟩,
                    ⟨some 5, some "hc".toList, some ["// TODO: c".toList]⟩)])
              (initState [])).errorCount + 1 } :=
  (C6_partial_failure_isolation 100 ["TODO".toList] 0 (initState [])
    [(⟨"file:a".toList, "/a".toList⟩,
        ⟨some 5, some "ha".toList, some ["// TODO: a".toList]⟩)]
    [(⟨"file:c".toList, "/c".toList⟩,
        ⟨some 5, some "hc".toList, some ["// TODO: c".toList]⟩)]
    ⟨"file:b".toList, "/b".toList⟩ ⟨some 5, some "hb".toList, none⟩
    rfl (by decide) (by decide)).1

/-- Claim C9 concerns the progress counter.  The code has a slip: for a
freshly scanned file `scannedFiles` is incremented twice (once at line 830
inside the scan branch and once more at line 834 before the report), so a
pass over a single uncached readable file reports "Scanned 2/1 files" — the
reported completed-count is 2 after processing 1 of 1 resolved files,
exceeding the total, where the claim (and the parallel non-progress branch
of the same function, which increments once) requires 1. -/
theorem C9_progress_overcount_at_failing_input :
    (processPatterns 100 ["TODO".toList] 0
        [some [(⟨"file:a".toList, "/a".toList⟩,
          ⟨some 10, some "h".toList, some ["// TODO: x".toList]⟩)]]
        (initState [])).reports = [(2, 1)]
    ∧ 1 < 2 := by
  refine ⟨by decide, by decide⟩

/-! ### Query/Filter Index model

Embeds `getFilteredEntries` of `TodoTreeDataProvider` (src/todoTree.ts lines
226-279): four sequentially applied filters followed by a stable sort.
JS string case mapping is modelled on ASCII via `Char.toLower`/`Char.toUpper`;
`localeCompare` is modelled as code-point lexicographic comparison. -/

/-- `s.toLowerCase()` (ASCII model). -/
def toLowerStr (s : Str) : Str := s.map Char.toLower

/-- `s.toUpperCase()` (ASCII model). -/
def toUpperStr (s : Str) : Str := s.map Char.toUpper

/-- JS `hay.includes(pat)`. -/
def includesSub (hay pat : Str) : Bool := (indexOfSub hay pat).isSome

/-- Embeds the `TodoFilter` interface (src/todoTree.ts lines 11-16); a JS
`undefined` field is `none`. -/
structure TodoFilter where
  keyword : Option Str
  searchText : Option Str
  filePath : Option Str
  currentFileOnly : Bool
deriving Repr

/-- `if (this.filter.keyword) filtered = filtered.filter(...)`: an undefined
or empty (falsy) keyword leaves the list unfiltered; otherwise entries whose
upper-cased kind equals the upper-cased keyword are kept. -/
def applyKeywordFilter (flt : TodoFilter) (l : List TodoEntry) : List TodoEntry :=
  match flt.keyword with
  | some kw =>
    if kw.isEmpty then l
    else l.filter fun e => toUpperStr e.kind = toUpperStr kw
  | none => l

/-- The `searchText` filter: case-insensitive substring match against `text`
or `lineText` (either suffices). -/
def applySearchFilter (flt : TodoFilter) (l : List TodoEntry) : List TodoEntry :=
  match flt.searchText with
  | some s =>
    if s.isEmpty then l
    else l.filter fun e =>
      includesSub (toLowerStr e.text) (toLowerStr s)
        || includesSub (toLowerStr e.lineText) (toLowerStr s)
  | none => l

/-- The `filePath` filter: case-insensitive substring match on `fsPath`. -/
def applyPathFilter (flt : TodoFilter) (l : List TodoEntry) : List TodoEntry :=
  match flt.filePath with
  | some p =>
    if p.isEmpty then l
    else l.filter fun e => includesSub (toLowerStr e.fileUri.fsPath) (toLowerStr p)
  | none => l

/-- The `currentFileOnly` filter: with an active editor keep the entries of
that file; with no active editor the list becomes empty (fail closed). -/
def applyCurrentFileFilter (flt : TodoFilter) (activeUri : Option Uri)
    (l : List TodoEntry) : List TodoEntry :=
  if flt.currentFileOnly then
    match activeUri with
    | some a => l.filter fun e => e.fileUri.key = a.key
    | none => []
  else l

/-- The filtering stage of `getFilteredEntries`, filters in source order. -/
def filterEntriesStage (entries : List TodoEntry) (flt : TodoFilter)
    (activeUri : Option Uri) : List TodoEntry :=
  applyCurrentFileFilter flt activeUri
    (applyPathFilter flt (applySearchFilter flt (applyKeywordFilter flt entries)))

/-- The `sortOrder` setting: "file" | "type" | "line". -/
inductive SortOrder where
  | file
  | type
  | line
deriving Repr, DecidableEq

/-- `localeCompare` modelled as code-point lexicographic comparison. -/
def cmpStr : Str → Str → Ordering
  | [], [] => .eq
  | [], _ :: _ => .lt
  | _ :: _, [] => .gt
  | a :: as, b :: bs =>
    if a < b then .lt else if b < a then .gt else cmpStr as bs

/-- The comparator of `getFilteredEntries` (src/todoTree.ts lines 260-276):
"type" compares kind then file path; "line" and "file" (the default) compare
file path then line number. -/
def entryCompare (order : SortOrder) (a b : TodoEntry) : Ordering :=
  match order with
  | .type => (cmpStr a.kind b.kind).then (cmpStr a.fileUri.fsPath b.fileUri.fsPath)
  | .line => (cmpStr a.fileUri.fsPath b.fileUri.fsPath).then (compare a.line b.line)
  | .file => (cmpStr a.fileUri.fsPath b.fileUri.fsPath).then (compare a.line b.line)

/-- "a comes no later than b" for the stable sort: comparator value ≤ 0. -/
def entryLE (order : SortOrder) (a b : TodoEntry) : Bool :=
  match entryCompare order a b with
  | .gt => false
  | _ => true

/-- JS `Array.prototype.sort` is a stable sort; modelled by the stable
`List.mergeSort` with the "comparator ≤ 0" relation. -/
def sortEntries (order : SortOrder) (l : List TodoEntry) : List TodoEntry :=
  l.mergeSort (entryLE order)

/-- The full `getFilteredEntries`: filtering stage then stable sort. -/
def getFilteredEntries (entries : List TodoEntry) (flt : TodoFilter)
    (activeUri : Option Uri) (order : SortOrder) : List TodoEntry :=
  sortEntries order (filterEntriesStage entries flt activeUri)

/-! ### C7: conjunctive filtering -/

/-- Satisfaction of the keyword filter, as a single predicate. -/
def keywordPred (flt : TodoFilter) (e : TodoEntry) : Bool :=
  match flt.keyword with
  | some kw => kw.isEmpty || toUpperStr e.kind = toUpperStr kw
  | none => true

/-- Satisfaction of the text-search filter, as a single predicate. -/
def searchPred (flt : TodoFilter) (e : TodoEntry) : Bool :=
  match flt.searchText with
  | some s =>
    s.isEmpty || includesSub (toLowerStr e.text) (toLowerStr s)
      || includesSub (toLowerStr e.lineText) (toLowerStr s)
  | none => true

/-- Satisfaction of the path filter, as a single predicate. -/
def pathPred (flt : TodoFilter) (e : TodoEntry) : Bool :=
  match flt.filePath with
  | some p => p.isEmpty || includesSub (toLowerStr e.fileUri.fsPath) (toLowerStr p)
  | none => true

/-- Satisfaction of the context-restriction filter, as a single predicate:
with the filter active and no current file supplied, nothing satisfies it. -/
def contextPred (flt : TodoFilter) (activeUri : Option Uri) (e : TodoEntry) :
    Bool :=
  if flt.currentFileOnly then
    match activeUri with
    | some a => e.fileUri.key = a.key
    | none => false
  else true

theorem applyKeywordFilter_eq_filter (flt : TodoFilter) (l : List TodoEntry) :
    applyKeywordFilter flt l = l.filter (keywordPred flt) := by
  unfold applyKeywordFilter keywordPred
  cases hk : flt.keyword with
  | none => simp
  | some kw =>
    cases kw with
    | nil => simp [List.isEmpty]
    | cons c cs => simp [List.isEmpty]

theorem applySearchFilter_eq_filter (flt : TodoFilter) (l : List TodoEntry) :
    applySearchFilter flt l = l.filter (searchPred flt) := by
  unfold applySearchFilter searchPred
  cases hk : flt.searchText with
  | none => simp
  | some s =>
    cases s with
    | nil => simp [List.isEmpty]
    | cons c cs => simp [List.isEmpty, Bool.or_assoc]

theorem applyPathFilter_eq_filter (flt : TodoFilter) (l : List TodoEntry) :
    applyPathFilter flt l = l.filter (pathPred flt) := by
  unfold applyPathFilter pathPred
  cases hk : flt.filePath with
  | none => simp
  | some p =>
    cases p with
    | nil => simp [List.isEmpty]
    | cons c cs => simp [List.isEmpty]

theorem applyCurrentFileFilter_eq_filter (flt : TodoFilter)
    (activeUri : Option Uri) (l : List TodoEntry) :
    applyCurrentFileFilter flt activeUri l = l.filter (contextPred flt activeUri) := by
  unfold applyCurrentFileFilter contextPred
  by_cases hc : flt.currentFileOnly
  · cases activeUri with
    | none => simp [hc]
    | some a => simp [hc]
  · simp [hc]

/-- Claim C7: the query keeps exactly the entries that satisfy every active
filter simultaneously — the sequentially applied filters equal one filter by
the conjunction of the four predicates; an entry is kept iff it is in the
input and satisfies the keyword, text, path and context predicates (so an
entry satisfying only some active filters is excluded); and with the
context-restriction filter active but no current-file reference supplied the
result is empty (fail closed). -/
theorem C7_filters_are_conjunctive (entries : List TodoEntry)
    (flt : TodoFilter) (activeUri : Option Uri) :
    (filterEntriesStage entries flt activeUri
      = entries.filter fun e =>
          keywordPred flt e && searchPred flt e && pathPred flt e
            && contextPred flt activeUri e)
    ∧ (∀ e, e ∈ filterEntriesStage entries flt activeUri ↔
        e ∈ entries ∧ keywordPred flt e = true ∧ searchPred flt e = true
          ∧ pathPred flt e = true ∧ contextPred flt activeUri e = true)
    ∧ (flt.currentFileOnly = true → activeUri = none →
        filterEntriesStage entries flt activeUri = []) := by
  have hmain : filterEntriesStage entries flt activeUri
      = entries.filter fun e =>
          keywordPred flt e && searchPred flt e && pathPred flt e
            && contextPred flt activeUri e := by
    unfold filterEntriesStage
    rw [applyKeywordFilter_eq_filter, applySearchFilter_eq_filter,
      applyPathFilter_eq_filter, applyCurrentFileFilter_eq_filter]
    simp only [List.filter_filter]
    apply List.filter_congr
    intro e _
    cases keywordPred flt e <;> cases searchPred flt e <;>
      cases pathPred flt e <;> cases contextPred flt activeUri e <;> rfl
  refine ⟨hmain, ?_, ?_⟩
  · intro e
    rw [hmain]
    simp [List.mem_filter, and_assoc]
  · intro hco hnone
    rw [hmain]
    have : (fun e => keywordPred flt e && searchPred flt e && pathPred flt e
        && contextPred flt activeUri e) = fun _ => false := by
      funext e
      simp [contextPred, hco, hnone]
    rw [this, List.filter_false]

/-- Witness for C7 at a concrete input: one BUG entry and one TODO entry,
keyword filter "bug" (case-insensitive) with no other active filter. -/
theorem C7_filters_are_conjunctive_witness :
    (⟨"BUG".toList, "null deref".toList, ⟨"file:a".toList, "/a".toList⟩, 0,
        "// BUG: null deref".toList⟩ : TodoEntry)
      ∈ filterEntriesStage
          [⟨"BUG".toList, "null deref".toList, ⟨"file:a".toList, "/a".toList⟩,
              0, "// BUG: null deref".toList⟩,
            ⟨"TODO".toList, "later".toList, ⟨"file:a".toList, "/a".toList⟩, 1,
              "// TODO: later".toList⟩]
          ⟨some "bug".toList, none, none, false⟩ none
      ↔ (⟨"BUG".toList, "null deref".toList, ⟨"file:a".toList, "/a".toList⟩, 0,
            "// BUG: null deref".toList⟩ : TodoEntry)
          ∈ [⟨"BUG".toList, "null deref".toList,
              ⟨"file:a".toList, "/a".toList⟩, 0, "// BUG: null deref".toList⟩,
            (⟨"TODO".toList, "later".toList, ⟨"file:a".toList, "/a".toList⟩, 1,
              "// TODO: later".toList⟩ : TodoEntry)]
        ∧ keywordPred ⟨some "bug".toList, none, none, false⟩
            ⟨"BUG".toList, "null deref".toList, ⟨"file:a".toList, "/a".toList⟩,
              0, "// BUG: null deref".toList⟩ = true
        ∧ searchPred ⟨some "bug".toList, none, none, false⟩
            ⟨"BUG".toList, "null deref".toList, ⟨"file:a".toList, "/a".toList⟩,
              0, "// BUG: null deref".toList⟩ = true
        ∧ pathPred ⟨some "bug".toList, none, none, false⟩
            ⟨"BUG".toList, "null deref".toList, ⟨"file:a".toList, "/a".toList⟩,
              0, "// BUG: null deref".toList⟩ = true
        ∧ contextPred ⟨some "bug".toList, none, none, false⟩ none
            ⟨"BUG".toList, "null deref".toList, ⟨"file:a".toList, "/a".toList⟩,
              0, "// BUG: null deref".toList⟩ = true :=
  (C7_filters_are_conjunctive
    [⟨"BUG".toList, "null deref".toList, ⟨"file:a".toList, "/a".toList⟩, 0,
        "// BUG: null deref".toList⟩,
      ⟨"TODO".toList, "later".toList, ⟨"file:a".toList, "/a".toList⟩, 1,
        "// TODO: later".toList⟩]
    ⟨some "bug".toList, none, none, false⟩ none).2.1
    ⟨"BUG".toList, "null deref".toList, ⟨"file:a".toList, "/a".toList⟩, 0,
      "// BUG: null deref".toList⟩

/-! ### C8: stable total-order sort -/

theorem cmpStr_eq_iff : ∀ {x y : Str}, cmpStr x y = .eq ↔ x = y
  | [], [] => by simp [cmpStr]
  | [], _ :: _ => by simp [cmpStr]
  | _ :: _, [] => by simp [cmpStr]
  | a :: as, b :: bs => by
    simp only [cmpStr]
    by_cases hab : a < b
    · simp [hab, ne_of_lt hab]
    · by_cases hba : b < a
      · simp [hab, hba, (ne_of_lt hba).symm]
      · have h : a = b := le_antisymm (not_lt.mp hba) (not_lt.mp hab)
        subst h
        simp [cmpStr_eq_iff]

theorem cmpStr_gt_iff : ∀ {x y : Str}, cmpStr x y = .gt ↔ cmpStr y x = .lt
  | [], [] => by simp [cmpStr]
  | [], _ :: _ => by simp [cmpStr]
  | _ :: _, [] => by simp [cmpStr]
  | a :: as, b :: bs => by
    simp only [cmpStr]
    by_cases hab : a < b
    · simp [hab, asymm hab]
    · by_cases hba : b < a
      · simp [hab, hba]
      · simp [hab, hba, cmpStr_gt_iff]

theorem cmpStr_lt_trans :
    ∀ {x y z : Str}, cmpStr x y = .lt → cmpStr y z = .lt → cmpStr x z = .lt
  | [], [], _, h, _ => by simp [cmpStr] at h
  | [], _ :: _, [], _, h => by simp [cmpStr] at h
  | [], _ :: _, _ :: _, _, _ => by simp [cmpStr]
  | _ :: _, [], _, h, _ => by simp [cmpStr] at h
  | _ :: _, _ :: _, [], _, h => by simp [cmpStr] at h
  | a :: as, b :: bs, c :: cs, h₁, h₂ => by
    simp only [cmpStr] at h₁ h₂ ⊢
    by_cases hab : a < b
    · by_cases hbc : b < c
      · simp [lt_trans hab hbc]
      · by_cases hcb : c < b
        · simp [hbc, hcb] at h₂
        · have h : b = c := le_antisymm (not_lt.mp hcb) (not_lt.mp hbc)
          subst h
          simp [hab]
    · by_cases hba : b < a
      · simp [hab, hba] at h₁
      · have h : a = b := le_antisymm (not_lt.mp hba) (not_lt.mp hab)
        subst h
        simp only [lt_irrefl, if_false] at h₁
        by_cases hac : a < c
        · simp [hac]
        · by_cases hca : c < a
          · simp [hac, hca] at h₂
          · have h : a = c := le_antisymm (not_lt.mp hca) (not_lt.mp hac)
            subst h
            simp only [lt_irrefl, if_false] at h₂ ⊢
            exact cmpStr_lt_trans h₁ h₂

theorem cmpStr_not_gt_trans {x y z : Str} (h₁ : cmpStr x y ≠ .gt)
    (h₂ : cmpStr y z ≠ .gt) : cmpStr x z ≠ .gt := by
  rcases hxy : cmpStr x y with _ | _ | _
  · rcases hyz : cmpStr y z with _ | _ | _
    · rw [Ne, cmpStr_gt_iff]
      intro h
      have := cmpStr_lt_trans (cmpStr_lt_trans hxy hyz) h
      rw [cmpStr_eq_iff.mpr rfl] at this
      exact Ordering.noConfusion this
    · rw [cmpStr_eq_iff.mp hyz] at hxy
      simp [hxy]
    · exact absurd hyz h₂
  · rw [cmpStr_eq_iff.mp hxy]
    exact h₂
  · exact absurd hxy h₁

theorem entryLE_file_iff (a b : TodoEntry) :
    entryLE .file a b = true ↔
      (cmpStr a.fileUri.fsPath b.fileUri.fsPath = .lt
        ∨ (a.fileUri.fsPath = b.fileUri.fsPath ∧ a.line ≤ b.line)) := by
  unfold entryLE entryCompare
  rcases hp : cmpStr a.fileUri.fsPath b.fileUri.fsPath with _ | _ | _
  · simp [Ordering.then]
  · have heq : a.fileUri.fsPath = b.fileUri.fsPath := cmpStr_eq_iff.mp hp
    rcases hn : compare a.line b.line with _ | _ | _
    · simp [Ordering.then, heq, le_of_lt (Nat.compare_eq_lt.mp hn)]
    · simp [Ordering.then, heq, le_of_eq (Nat.compare_eq_eq.mp hn)]
    · have := Nat.compare_eq_gt.mp hn
      simp [Ordering.then, heq, not_le.mpr this, hp]
  · have hne : a.fileUri.fsPath ≠ b.fileUri.fsPath := by
      intro h
      rw [cmpStr_eq_iff.mpr h] at hp
      exact Ordering.noConfusion hp
    simp [Ordering.then, hp, hne]

theorem entryLE_type_iff (a b : TodoEntry) :
    entryLE .type a b = true ↔
      (cmpStr a.kind b.kind = .lt
        ∨ (a.kind = b.kind
            ∧ cmpStr a.fileUri.fsPath b.fileUri.fsPath ≠ .gt)) := by
  unfold entryLE entryCompare
  rcases hk : cmpStr a.kind b.kind with _ | _ | _
  · simp [Ordering.then]
  · have heq : a.kind = b.kind := cmpStr_eq_iff.mp hk
    rcases hp : cmpStr a.fileUri.fsPath b.fileUri.fsPath with _ | _ | _ <;>
      simp [Ordering.then, heq, hp, hk]
  · have hne : a.kind ≠ b.kind := by
      intro h
      rw [cmpStr_eq_iff.mpr h] at hk
      exact Ordering.noConfusion hk
    simp [Ordering.then, hk, hne]

theorem entryLE_line_eq_file : entryLE .line = entryLE .file := rfl

theorem entryLE_trans (order : SortOrder) (a b c : TodoEntry)
    (h₁ : entryLE order a b) (h₂ : entryLE order b c) : entryLE order a c := by
  cases order with
  | type =>
    rw [entryLE_type_iff] at h₁ h₂ ⊢
    rcases h₁ with h₁ | ⟨h₁, h₁'⟩
    · rcases h₂ with h₂ | ⟨h₂, -⟩
      · exact Or.inl (cmpStr_lt_trans h₁ h₂)
      · exact Or.inl (h₂ ▸ h₁)
    · rcases h₂ with h₂ | ⟨h₂, h₂'⟩
      · exact Or.inl (h₁ ▸ h₂)
      · exact Or.inr ⟨h₁.trans h₂, cmpStr_not_gt_trans h₁' h₂'⟩
  | line =>
    rw [entryLE_line_eq_file] at h₁ h₂ ⊢
    rw [entryLE_file_iff] at h₁ h₂ ⊢
    rcases h₁ with h₁ | ⟨h₁, h₁'⟩
    · rcases h₂ with h₂ | ⟨h₂, -⟩
      · exact Or.inl (cmpStr_lt_trans h₁ h₂)
      · exact Or.inl (h₂ ▸ h₁)
    · rcases h₂ with h₂ | ⟨h₂, h₂'⟩
      · exact Or.inl (h₁ ▸ h₂)
      · exact Or.inr ⟨h₁.trans h₂, h₁'.trans h₂'⟩
  | file =>
    rw [entryLE_file_iff] at h₁ h₂ ⊢
    rcases h₁ with h₁ | ⟨h₁, h₁'⟩
    · rcases h₂ with h₂ | ⟨h₂, -⟩
      · exact Or.inl (cmpStr_lt_trans h₁ h₂)
      · exact Or.inl (h₂ ▸ h₁)
    · rcases h₂ with h₂ | ⟨h₂, h₂'⟩
      · exact Or.inl (h₁ ▸ h₂)
      · exact Or.inr ⟨h₁.trans h₂, h₁'.trans h₂'⟩

theorem entryLE_total (order : SortOrder) (a b : TodoEntry) :
    entryLE order a b || entryLE order b a := by
  rw [Bool.or_eq_true]
  by_cases h : entryLE order a b = true
  · exact Or.inl h
  · right
    cases order with
    | type =>
      rw [entryLE_type_iff] at h ⊢
      push_neg at h
      obtain ⟨h₁, h₂⟩ := h
      rcases hk : cmpStr a.kind b.kind with _ | _ | _
      · exact absurd hk h₁
      · have heq := cmpStr_eq_iff.mp hk
        refine Or.inr ⟨heq.symm, ?_⟩
        have hgt := h₂ heq
        have hlt : cmpStr b.fileUri.fsPath a.fileUri.fsPath = .lt :=
          cmpStr_gt_iff.mp hgt
        simp [hlt]
      · exact Or.inl (cmpStr_gt_iff.mp hk)
    | line =>
      rw [entryLE_line_eq_file] at h ⊢
      rw [entryLE_file_iff] at h ⊢
      push_neg at h
      obtain ⟨h₁, h₂⟩ := h
      rcases hp : cmpStr a.fileUri.fsPath b.fileUri.fsPath with _ | _ | _
      · exact absurd hp h₁
      · have heq := cmpStr_eq_iff.mp hp
        exact Or.inr ⟨heq.symm, le_of_lt (h₂ heq)⟩
      · exact Or.inl (cmpStr_gt_iff.mp hp)
    | file =>
      rw [entryLE_file_iff] at h ⊢
      push_neg at h
      obtain ⟨h₁, h₂⟩ := h
      rcases hp : cmpStr a.fileUri.fsPath b.fileUri.fsPath with _ | _ | _
      · exact absurd hp h₁
      · have heq := cmpStr_eq_iff.mp hp
        exact Or.inr ⟨heq.symm, le_of_lt (h₂ heq)⟩
      · exact Or.inl (cmpStr_gt_iff.mp hp)

/-- Stability of the sort with respect to any key refining the comparator:
the subsequence of entries with a fixed key value is preserved. -/
theorem sortEntries_filter_key {κ : Type} [DecidableEq κ] (order : SortOrder)
    (key : TodoEntry → κ)
    (hkey : ∀ a b, key a = key b → entryLE order a b = true)
    (l : List TodoEntry) (K : κ) :
    (sortEntries order l).filter (fun e => key e = K)
      = l.filter (fun e => key e = K) := by
  have hpair : (l.filter (fun e => key e = K)).Pairwise
      (fun a b => entryLE order a b) := by
    apply List.pairwise_of_forall_mem_list
    intro a ha b hb
    have hka : key a = K := by simpa using (List.of_mem_filter ha)
    have hkb : key b = K := by simpa using (List.of_mem_filter hb)
    exact hkey a b (hka.trans hkb.symm)
  have hstable : List.Sublist (l.filter (fun e => key e = K))
      (sortEntries order l) :=
    List.sublist_mergeSort (entryLE_trans order) (entryLE_total order)
      hpair (List.filter_sublist l)
  have hsub : List.Sublist (l.filter (fun e => key e = K))
      ((sortEntries order l).filter (fun e => key e = K)) := by
    have h₁ := hstable.filter (fun e => key e = K)
    rwa [List.filter_filter, List.filter_congr
      (fun a _ => Bool.and_self (decide (key a = K)))] at h₁
  have hperm : List.Perm ((sortEntries order l).filter (fun e => key e = K))
      (l.filter (fun e => key e = K)) :=
    (List.mergeSort_perm l (entryLE order)).filter _
  exact (hsub.eq_of_length hperm.length_eq.symm).symm

/-- Claim C8: the sort of the query is a stable total order — the output is
a permutation of the input; in file-path mode it is ordered primarily by
file path lexicographically with ties broken by line number ascending; in
keyword mode primarily by keyword with ties broken by file path; and any two
entries with identical sort keys (file path and line, resp. keyword and file
path) preserve their relative input order: the subsequence of entries with
any fixed key value is unchanged. -/
theorem C8_sort_stable_total_order :
    (∀ (order : SortOrder) (l : List TodoEntry),
        List.Perm (sortEntries order l) l)
    ∧ (∀ l : List TodoEntry, (sortEntries .file l).Pairwise fun a b =>
        cmpStr a.fileUri.fsPath b.fileUri.fsPath = .lt
          ∨ (a.fileUri.fsPath = b.fileUri.fsPath ∧ a.line ≤ b.line))
    ∧ (∀ l : List TodoEntry, (sortEntries .type l).Pairwise fun a b =>
        cmpStr a.kind b.kind = .lt
          ∨ (a.kind = b.kind ∧ cmpStr a.fileUri.fsPath b.fileUri.fsPath ≠ .gt))
    ∧ (∀ (l : List TodoEntry) (K : Str × Nat),
        (sortEntries .file l).filter (fun e => (e.fileUri.fsPath, e.line) = K)
          = l.filter (fun e => (e.fileUri.fsPath, e.line) = K))
    ∧ (∀ (l : List TodoEntry) (K : Str × Str),
        (sortEntries .type l).filter (fun e => (e.kind, e.fileUri.fsPath) = K)
          = l.filter (fun e => (e.kind, e.fileUri.fsPath) = K)) := by
  refine ⟨?_, ?_, ?_, ?_, ?_⟩
  · intro order l
    exact List.mergeSort_perm l (entryLE order)
  · intro l
    have h : (sortEntries .file l).Pairwise fun a b => entryLE .file a b :=
      List.sorted_mergeSort
        (fun a b c => entryLE_trans .file a b c) (entryLE_total .file) l
    exact h.imp fun hab => (entryLE_file_iff _ _).mp hab
  · intro l
    have h : (sortEntries .type l).Pairwise fun a b => entryLE .type a b :=
      List.sorted_mergeSort
        (fun a b c => entryLE_trans .type a b c) (entryLE_total .type) l
    exact h.imp fun hab => (entryLE_type_iff _ _).mp hab
  · intro l K
    apply sortEntries_filter_key .file (fun e => (e.fileUri.fsPath, e.line))
    intro a b hab
    rw [Prod.mk.injEq] at hab
    exact (entryLE_file_iff a b).mpr (Or.inr ⟨hab.1, le_of_eq hab.2⟩)
  · intro l K
    apply sortEntries_filter_key .type (fun e => (e.kind, e.fileUri.fsPath))
    intro a b hab
    rw [Prod.mk.injEq] at hab
    refine (entryLE_type_iff a b).mpr (Or.inr ⟨hab.1, ?_⟩)
    rw [hab.2, Ne, cmpStr_gt_iff, cmpStr_eq_iff.mpr rfl]
    exact fun h => Ordering.noConfusion h

end AutoTodo
